import Mathlib

/-!
Shallow embedding of `src/main.rs` of the `what-even-is-gh-actions` secrets
action: identifier parsing (`parse_secret_input`), projection of vault records
onto environment variables (`prepare_secret_env_vars`), secure persistence to
the environment-propagation file (`mask_value`, `issue_file_command`,
`set_secrets`), subprocess execution (`execute_run_command`) and the dispatch
in `main`.  Effectful code is modelled by returning an explicit trace of
observable events next to an `Except` result; external collaborators (the
process environment, the filesystem open call, the UUID generator, the vault
client and the subprocess spawn) are oracle parameters.  Diagnostics emitted
through the repository's `debug!` macro are out of scope per the spec (§1) and
produce no event.
-/

namespace SmAction

/-- Hex digit value of a character, case-insensitive (`uuid` crate digit
parsing). -/
def hexVal (c : Char) : Option Nat :=
  if '0' ≤ c ∧ c ≤ '9' then some (c.toNat - '0'.toNat)
  else if 'a' ≤ c ∧ c ≤ 'f' then some (c.toNat - 'a'.toNat + 10)
  else if 'A' ≤ c ∧ c ≤ 'F' then some (c.toNat - 'A'.toNat + 10)
  else none

/-- Accumulating big-endian hex parse of a character list; fails on any
non-hex character. -/
def parseHexChars : List Char → Nat → Option Nat
  | [], acc => some acc
  | c :: cs, acc =>
    match hexVal c with
    | some d => parseHexChars cs (acc * 16 + d)
    | none => none

/-- A 128-bit UUID compared by binary value (`uuid::Uuid`). -/
structure Uuid where
  val : Nat
deriving DecidableEq

/-- Rust's `str::split(sep)` on a character list: `""` yields `[""]`, a
leading/trailing/double separator yields empty segments. -/
def splitChar (sep : Char) : List Char → List (List Char)
  | [] => [[]]
  | c :: cs =>
    if c = sep then [] :: splitChar sep cs
    else
      match splitChar sep cs with
      | s :: ss => (c :: s) :: ss
      | [] => [[c]]

/-- Rust's `str::trim` (whitespace stripped from both ends). -/
def trimChars (cs : List Char) : List Char :=
  ((cs.dropWhile Char.isWhitespace).reverse.dropWhile Char.isWhitespace).reverse

/-- Embedding of `uuid::Uuid::from_str`: accepts the hyphenated 8-4-4-4-12 form, the plain
32-hex-digit form, and the `urn:uuid:`/braced wrappings, case-insensitively. -/
def Uuid.fromStr (s : String) : Option Uuid :=
  let cs := s.data
  let core :=
    if cs.take 9 = "urn:uuid:".data then cs.drop 9
    else if cs.head? = some '\x7b' ∧ cs.getLast? = some '\x7d' then (cs.drop 1).dropLast
    else cs
  match splitChar '-' core with
  | [a] =>
    if a.length = 32 then (parseHexChars a 0).map Uuid.mk else none
  | [a, b, c, d, e] =>
    if a.length = 8 ∧ b.length = 4 ∧ c.length = 4 ∧ d.length = 4 ∧ e.length = 12 then
      (parseHexChars (a ++ b ++ c ++ d ++ e) 0).map Uuid.mk
    else none
  | _ => none

/-- Lowercase hex digit character for a value below 16. -/
def hexDigitChar (n : Nat) : Char :=
  if n < 10 then Char.ofNat ('0'.toNat + n) else Char.ofNat ('a'.toNat + n - 10)

/-- Fixed-width big-endian lowercase hex rendering. -/
def toHexPad : Nat → Nat → List Char
  | 0, _ => []
  | w + 1, v => toHexPad w (v / 16) ++ [hexDigitChar (v % 16)]

/-- The `Display` form of a UUID: hyphenated lowercase hex. -/
def Uuid.render (u : Uuid) : String :=
  let cs := toHexPad 32 u.val
  String.mk
    (cs.take 8 ++ '-' :: (cs.drop 8).take 4 ++ '-' :: (cs.drop 12).take 4 ++
      '-' :: (cs.drop 16).take 4 ++ '-' :: cs.drop 20)

/-! ### Association lists refining `std::collections::HashMap` -/

/-- Lookup, as `HashMap::get`. -/
def alLookup {α β : Type} [DecidableEq α] : List (α × β) → α → Option β
  | [], _ => none
  | (k, v) :: rest, a => if k = a then some v else alLookup rest a

/-- Insertion, as `HashMap::insert`: returns the displaced old value and the updated map
(the binding is replaced in place, so each key occurs at most once). -/
def alInsert {α β : Type} [DecidableEq α] : List (α × β) → α → β → Option β × List (α × β)
  | [], k, v => (none, [(k, v)])
  | (k', v') :: rest, k, v =>
    if k' = k then (some v', (k, v) :: rest)
    else
      let (old, rest') := alInsert rest k v
      (old, (k', v') :: rest')

/-! ### `parse_secret_input` (src/main.rs lines 83-102) -/

/-- Embedding of `line.split('>').next().unwrap_or_default().trim()`: the text before the
first `>` (the whole line when there is none), trimmed. -/
def uuidPartOf (line : String) : String :=
  String.mk (trimChars (((splitChar '>' line.data).head?).getD []))

/-- Embedding of `line.split('>').nth(1).unwrap_or_default().trim()`: the text between the
first and second `>` (empty when there is no `>`), trimmed. -/
def namePartOf (line : String) : String :=
  String.mk (trimChars (((splitChar '>' line.data).get? 1).getD []))

/-- The duplicate-identifier warning printed on stderr (src/main.rs
lines 95-97). -/
def dupWarning (u : Uuid) (oldName newName : String) : String :=
  "Warning: Duplicate UUID found: " ++ u.render ++ ". Old value: " ++ oldName ++
    ", New value: " ++ newName

/-- The loop body of `parse_secret_input`, threading the map under
construction and the warnings emitted so far. -/
def parseSecretsAux : List String → List (Uuid × String) → List String →
    Except String (List (Uuid × String)) × List String
  | [], m, ws => (Except.ok m, ws)
  | line :: rest, m, ws =>
    let uuid_part := uuidPartOf line
    match Uuid.fromStr uuid_part with
    | none => (Except.error ("Invalid UUID format: " ++ uuid_part), ws)
    | some uuid =>
      let desired_name := namePartOf line
      let (old, m') := alInsert m uuid desired_name
      match old with
      | some old_value =>
        parseSecretsAux rest m' (ws ++ [dupWarning uuid old_value desired_name])
      | none => parseSecretsAux rest m' ws

/-- Embedding of `parse_secret_input`: parses the `UUID > Name` lines into an identifier
map, accumulating duplicate warnings; fails on the first invalid UUID. -/
def parse_secret_input (secret_lines : List String) :
    Except String (List (Uuid × String)) × List String :=
  parseSecretsAux secret_lines [] []

/-! ### Observable events of the effectful paths -/

/-- One observable effect of a run: an stdout line (`println!`), an stderr
line (`eprintln!`), an append to a file, a subprocess spawn, or one of the two
vault calls. -/
inductive Event where
  | outLine (line : String)
  | errLine (line : String)
  | fileAppend (path : String) (content : String)
  | spawnProc (shell : String) (arg : String) (envs : List (String × String))
  | authAttempt
  | resolveAttempt (ids : List Uuid)
deriving DecidableEq

/-- The masking directive line printed by `mask_value` (src/main.rs
lines 105-107). -/
def mask_value_line (value : String) : String := "::add-mask::" ++ value

/-- Embedding of `issue_file_command` (src/main.rs lines 109-119): the bytes one entry
appends to the file.  `writeln!` with the three-line raw-string template ends
each of the three lines, value included verbatim, with a newline. -/
def issue_file_command (freshUuid : String) (key value : String) : String :=
  let delimiter := "ghadelimiter_" ++ freshUuid
  key ++ "<<" ++ delimiter ++ "\n" ++ value ++ "\n" ++ delimiter ++ "\n"

/-- Modelled from the spec: the missing `config` module's `get_env` (its
source is not under `src/`) reads one process environment variable; the
process environment is an oracle valuation from names to optional values. -/
def get_env (env : String → Option String) (name : String) : Option String :=
  env name

/-- The path `set_secrets` writes to: `$GITHUB_ENV`, defaulting to
`/dev/null` when the variable is unset (src/main.rs line 125). -/
def envPath (env : String → Option String) : String :=
  (get_env env "GITHUB_ENV").getD "/dev/null"

/-- Embedding of `set_secrets` (src/main.rs lines 122-138): emit the masking directive,
then open `$GITHUB_ENV` in append mode and write the framed entry.  `openFails`
is the filesystem oracle for the `OpenOptions::open` call; when it fails the
`?` operator propagates the error, with the masking line already printed. -/
def set_secrets (env : String → Option String) (openFails : String → Bool)
    (freshUuid secret_name secret_value : String) :
    List Event × Except String Unit :=
  let maskEv := Event.outLine (mask_value_line secret_value)
  let env_path := envPath env
  if openFails env_path then
    ([maskEv], Except.error ("failed to open " ++ env_path))
  else
    ([maskEv, Event.fileAppend env_path (issue_file_command freshUuid secret_name secret_value)],
      Except.ok ())

/-- The persistence loop of `main` (src/main.rs lines 73-76): for each
projected (name, value) print the progress line and call `set_secrets`,
aborting on the first error.  `toks` is the `Uuid::new_v4` oracle, consumed in
call order starting at index `k`. -/
def persistLoop (env : String → Option String) (openFails : String → Bool)
    (toks : Nat → String) :
    List (String × String) → Nat → List Event × Except String Unit
  | [], _ => ([], Except.ok ())
  | (name, value) :: rest, k =>
    let (evs, res) := set_secrets env openFails (toks k) name value
    match res with
    | Except.error e =>
      (Event.outLine ("Setting secret: " ++ name) :: evs, Except.error e)
    | Except.ok _ =>
      let (evs', res') := persistLoop env openFails toks rest (k + 1)
      (Event.outLine ("Setting secret: " ++ name) :: evs ++ evs', res')

/-! ### `execute_run_command` (src/main.rs lines 141-168) -/

/-- The observable outcome of a completed child process: whether
`ExitStatus::success()` holds and its `Display` rendering. -/
structure ExitStatus where
  success : Bool
  render : String
deriving DecidableEq

/-- Embedding of `execute_run_command`: a blank command is a no-op; otherwise spawn the
platform shell once with the command as a single argument and the secrets
merged into the environment.  `spawn` is the `Command::status` oracle: it
returns the exit status, or the I/O error when the process cannot start. -/
def execute_run_command (os : String)
    (spawn : String → String → List (String × String) → Except String ExitStatus)
    (cmdStr : String) (secret_envs : List (String × String)) :
    List Event × Except String Unit :=
  if String.mk (trimChars cmdStr.data) = "" then ([], Except.ok ())
  else
    let shell := if os = "windows" then "powershell" else "/bin/sh"
    let ev := Event.spawnProc shell cmdStr secret_envs
    match spawn shell cmdStr secret_envs with
    | Except.ok exit_status =>
      if exit_status.success then ([ev], Except.ok ())
      else
        ([ev], Except.error ("Commands exited with non-zero status: " ++ exit_status.render))
    | Except.error e => ([ev], Except.error ("Failed to execute commands: " ++ e))

/-! ### `prepare_secret_env_vars` (src/main.rs lines 171-183) -/

/-- The two fields of `bitwarden_sm::secrets::SecretResponse` this program
reads: the secret's identifier and its value. -/
structure SecretResponse where
  id : Uuid
  value : String
deriving DecidableEq

/-- Rust's `collect::<HashMap<_, _>>()`: insert the pairs in iterator order, a later
binding for the same key replacing the earlier one. -/
def hmCollect (ps : List (String × String)) : List (String × String) :=
  ps.foldl (fun m p => (alInsert m p.1 p.2).2) []

/-- Embedding of `prepare_secret_env_vars`: join the vault records against the identifier
map, keeping `(name, value)` for each record whose id is mapped and silently
dropping the rest. -/
def prepare_secret_env_vars (secrets_data : List SecretResponse)
    (id_to_name_map : List (Uuid × String)) : List (String × String) :=
  hmCollect (secrets_data.filterMap fun secret =>
    (alLookup id_to_name_map secret.id).map fun name => (name, secret.value))

/-! ### `main` (src/main.rs lines 17-80) -/

/-- The three configuration inputs `main` reads.  Modelled from the spec: the
`config` module's `Config::new` (not under `src/`) loads the raw secret
lines, the access token and the optional run command from the surrounding
process configuration. -/
structure Config where
  secrets : List String
  access_token : String
  run : Option String

/-- The mode dispatch of `main` (src/main.rs lines 70-77): run-command mode
when a command is configured, otherwise the file-persistence loop. -/
def runPhase (run : Option String) (os : String)
    (spawn : String → String → List (String × String) → Except String ExitStatus)
    (env : String → Option String) (openFails : String → Bool) (toks : Nat → String)
    (secret_envs : List (String × String)) : List Event × Except String Unit :=
  match run with
  | some cmdStr => execute_run_command os spawn cmdStr secret_envs
  | none => persistLoop env openFails toks secret_envs 0

/-- Embedding of `main`: the `--test` short-circuit, configuration loading, parsing,
authentication, resolution, projection and the mode dispatch, with every
external collaborator an oracle. -/
def mainFn (args : List String) (cfgResult : Except String Config)
    (inferUrls : Config → Except String (String × String))
    (auth : String → Except String Unit)
    (resolve : List Uuid → Except String (List SecretResponse))
    (os : String)
    (spawn : String → String → List (String × String) → Except String ExitStatus)
    (env : String → Option String) (openFails : String → Bool) (toks : Nat → String) :
    List Event × Except String Unit :=
  if args.any (fun a => a == "--test") then
    ([Event.outLine "success"], Except.ok ())
  else
    match cfgResult with
    | Except.error e => ([], Except.error e)
    | Except.ok config =>
      match inferUrls config with
      | Except.error e => ([], Except.error e)
      | Except.ok _ =>
        let evs0 := [Event.outLine "Parsing secrets input..."]
        let (pres, warns) := parse_secret_input config.secrets
        let warnEvs := warns.map Event.errLine
        match pres with
        | Except.error _ =>
          (evs0 ++ warnEvs,
            Except.error "Failed to parse secrets input. Ensure the format is 'UUID > Name'.")
        | Except.ok id_to_name_map =>
          let evs1 := evs0 ++ warnEvs ++
            [Event.outLine "Authenticating with Bitwarden...", Event.authAttempt]
          match auth config.access_token with
          | Except.error e =>
            (evs1, Except.error ("Authentication with Bitwarden failed.\nError: " ++ e))
          | Except.ok _ =>
            let secret_ids := id_to_name_map.map Prod.fst
            let evs2 := evs1 ++ [Event.resolveAttempt secret_ids]
            match resolve secret_ids with
            | Except.error e =>
              (evs2,
                Except.error
                  ("The secrets provided could not be found. Please check the machine account has access to the secret UUIDs provided.\nError: " ++ e))
            | Except.ok data =>
              let secret_envs := prepare_secret_env_vars data id_to_name_map
              let (evs3, res) := runPhase config.run os spawn env openFails toks secret_envs
              (evs2 ++ evs3, res)

/-! ### Spec-side descriptions used by the claims -/

/-- The file contents appended by a trace, in order. -/
def writesOf (tr : List Event) : List String :=
  tr.filterMap fun e =>
    match e with
    | Event.fileAppend _ c => some c
    | _ => none

/-- The three-line frames the spec prescribes for a list of entries, one
fresh delimiter per entry taken from the token stream starting at `k`. -/
def framesFrom (toks : Nat → String) : Nat → List (String × String) → List String
  | _, [] => []
  | k, (n, v) :: rest =>
    (n ++ "<<" ++ ("ghadelimiter_" ++ toks k) ++ "\n" ++ v ++ "\n" ++
        ("ghadelimiter_" ++ toks k) ++ "\n") ::
      framesFrom toks (k + 1) rest

/-- The (identifier, name) pairs of the lines that parse, in input order. -/
def linePairs (lines : List String) : List (Uuid × String) :=
  lines.filterMap fun l => (Uuid.fromStr (uuidPartOf l)).map fun u => (u, namePartOf l)

/-- The name attached to the last occurrence of `u` in a pair list. -/
def lastNameFor (u : Uuid) : List (Uuid × String) → Option String
  | [] => none
  | (k, n) :: rest =>
    match lastNameFor u rest with
    | some r => some r
    | none => if k = u then some n else none

/-- Insert a list of pairs into a map, left to right. -/
def insertAll (m : List (Uuid × String)) (ps : List (Uuid × String)) :
    List (Uuid × String) :=
  ps.foldl (fun acc p => (alInsert acc p.1 p.2).2) m

/-- The duplicate warnings the spec prescribes: one per occurrence whose
identifier already occurred, naming the identifier, the previously mapped
(most recent) name and the new name. -/
def dupWarningsSpec : List (Uuid × String) → List (Uuid × String) → List String
  | _, [] => []
  | seen, (u, n) :: rest =>
    (match lastNameFor u seen with
     | some oldName => [dupWarning u oldName n]
     | none => []) ++ dupWarningsSpec (seen ++ [(u, n)]) rest

/-- The warnings `parse_secret_input` emits while folding pairs into a map
that starts as `m`. -/
def dupWarningsFrom (m : List (Uuid × String)) : List (Uuid × String) → List String
  | [] => []
  | (u, n) :: rest =>
    (match alLookup m u with
     | some oldName => [dupWarning u oldName n]
     | none => []) ++ dupWarningsFrom (alInsert m u n).2 rest

/-! ### Basic lemmas -/

theorem string_append_left_cancel {a x y : String} (h : a ++ x = a ++ y) : x = y := by
  apply String.ext
  have hd : a.data ++ x.data = a.data ++ y.data := by
    simpa [String.data_append] using congrArg String.data h
  exact List.append_cancel_left hd

theorem alInsert_cons {α β : Type} [DecidableEq α] (k' k : α) (v' v : β)
    (rest : List (α × β)) :
    alInsert ((k', v') :: rest) k v =
      if k' = k then (some v', (k, v) :: rest)
      else ((alInsert rest k v).1, (k', v') :: (alInsert rest k v).2) := by
  by_cases h : k' = k <;> simp [alInsert, h]

theorem alInsert_fst {α β : Type} [DecidableEq α] (m : List (α × β)) (k : α) (v : β) :
    (alInsert m k v).1 = alLookup m k := by
  induction m with
  | nil => rfl
  | cons p rest ih =>
    obtain ⟨k', v'⟩ := p
    rw [alInsert_cons]
    by_cases h : k' = k <;> simp [alLookup, h, ih]

theorem alLookup_alInsert {α β : Type} [DecidableEq α] (m : List (α × β)) (k a : α)
    (v : β) :
    alLookup (alInsert m k v).2 a = if k = a then some v else alLookup m a := by
  induction m with
  | nil => by_cases h : k = a <;> simp [alInsert, alLookup, h]
  | cons p rest ih =>
    obtain ⟨k', v'⟩ := p
    rw [alInsert_cons]
    by_cases hk : k' = k
    · subst hk
      rw [if_pos rfl]
      by_cases h2 : k' = a
      · subst h2
        simp [alLookup]
      · simp [alLookup, h2]
    · rw [if_neg hk]
      by_cases h2 : k' = a
      · subst h2
        have h3 : ¬ k = k' := fun hh => hk hh.symm
        simp [alLookup, h3]
      · simp [alLookup, h2, ih]

theorem mem_alInsert {α β : Type} [DecidableEq α] {m : List (α × β)} {k : α} {v : β}
    {p : α × β} (h : p ∈ (alInsert m k v).2) : p = (k, v) ∨ p ∈ m := by
  induction m with
  | nil => simpa [alInsert] using h
  | cons q rest ih =>
    obtain ⟨k', v'⟩ := q
    rw [alInsert_cons] at h
    by_cases hk : k' = k
    · rw [if_pos hk] at h
      rcases List.mem_cons.mp h with h | h
      · exact Or.inl h
      · exact Or.inr (List.mem_cons_of_mem _ h)
    · rw [if_neg hk] at h
      rcases List.mem_cons.mp h with h | h
      · exact Or.inr (by rw [h]; exact List.mem_cons_self _ _)
      · rcases ih h with h2 | h2
        · exact Or.inl h2
        · exact Or.inr (List.mem_cons_of_mem _ h2)

theorem mem_keys_alInsert {α β : Type} [DecidableEq α] {m : List (α × β)} {k a : α}
    {v : β} (h : a ∈ (alInsert m k v).2.map Prod.fst) :
    a = k ∨ a ∈ m.map Prod.fst := by
  rcases List.mem_map.mp h with ⟨p, hp, rfl⟩
  rcases mem_alInsert hp with h2 | h2
  · exact Or.inl (by rw [h2])
  · exact Or.inr (List.mem_map.mpr ⟨p, h2, rfl⟩)

theorem nodup_keys_alInsert {α β : Type} [DecidableEq α] {m : List (α × β)} (k : α)
    (v : β) (h : (m.map Prod.fst).Nodup) :
    ((alInsert m k v).2.map Prod.fst).Nodup := by
  induction m with
  | nil => simp [alInsert]
  | cons q rest ih =>
    obtain ⟨k', v'⟩ := q
    simp only [List.map_cons, List.nodup_cons] at h
    rw [alInsert_cons]
    by_cases hk : k' = k
    · rw [if_pos hk]
      subst hk
      simp only [List.map_cons, List.nodup_cons]
      exact ⟨h.1, h.2⟩
    · rw [if_neg hk]
      simp only [List.map_cons, List.nodup_cons]
      refine ⟨?_, ih h.2⟩
      intro hmem
      rcases mem_keys_alInsert hmem with h2 | h2
      · exact hk h2
      · exact h.1 h2

theorem alLookup_mem_values {α β : Type} [DecidableEq α] {m : List (α × β)} {k : α}
    {v : β} (h : alLookup m k = some v) : v ∈ m.map Prod.snd := by
  induction m with
  | nil => simp [alLookup] at h
  | cons p rest ih =>
    obtain ⟨k', v'⟩ := p
    by_cases hk : k' = k
    · simp [alLookup, hk] at h
      simp [h]
    · simp [alLookup, hk] at h
      simp [ih h]

/-! ### Lemmas about the persistence loop -/

theorem set_secrets_fail (env : String → Option String) (openFails : String → Bool)
    (freshUuid n v : String) (h : openFails (envPath env) = true) :
    set_secrets env openFails freshUuid n v =
      ([Event.outLine (mask_value_line v)],
        Except.error ("failed to open " ++ envPath env)) := by
  simp [set_secrets, h]

theorem set_secrets_ok (env : String → Option String) (openFails : String → Bool)
    (freshUuid n v : String) (h : openFails (envPath env) = false) :
    set_secrets env openFails freshUuid n v =
      ([Event.outLine (mask_value_line v),
        Event.fileAppend (envPath env) (issue_file_command freshUuid n v)],
        Except.ok ()) := by
  simp [set_secrets, h]

theorem persistLoop_cons_fail (env : String → Option String) (openFails : String → Bool)
    (toks : Nat → String) (n v : String) (rest : List (String × String)) (k : Nat)
    (h : openFails (envPath env) = true) :
    persistLoop env openFails toks ((n, v) :: rest) k =
      ([Event.outLine ("Setting secret: " ++ n), Event.outLine (mask_value_line v)],
        Except.error ("failed to open " ++ envPath env)) := by
  simp [persistLoop, set_secrets_fail env openFails (toks k) n v h]

theorem persistLoop_cons_ok (env : String → Option String) (openFails : String → Bool)
    (toks : Nat → String) (n v : String) (rest : List (String × String)) (k : Nat)
    (h : openFails (envPath env) = false) :
    persistLoop env openFails toks ((n, v) :: rest) k =
      (Event.outLine ("Setting secret: " ++ n) ::
        Event.outLine (mask_value_line v) ::
        Event.fileAppend (envPath env) (issue_file_command (toks k) n v) ::
        (persistLoop env openFails toks rest (k + 1)).1,
        (persistLoop env openFails toks rest (k + 1)).2) := by
  simp [persistLoop, set_secrets_ok env openFails (toks k) n v h]

theorem persistLoop_no_spawn (env : String → Option String) (openFails : String → Bool)
    (toks : Nat → String) (entries : List (String × String)) (k : Nat)
    (sh a : String) (es : List (String × String)) :
    Event.spawnProc sh a es ∉ (persistLoop env openFails toks entries k).1 := by
  induction entries generalizing k with
  | nil => simp [persistLoop]
  | cons p rest ih =>
    obtain ⟨n, v⟩ := p
    by_cases h : openFails (envPath env) = true
    · rw [persistLoop_cons_fail env openFails toks n v rest k h]
      simp
    · rw [persistLoop_cons_ok env openFails toks n v rest k (by simpa using h)]
      simp only [List.mem_cons]
      push_neg
      exact ⟨by simp, by simp, by simp, ih (k + 1)⟩

theorem exec_trace_cases (os : String)
    (spawn : String → String → List (String × String) → Except String ExitStatus)
    (cmdStr : String) (secret_envs : List (String × String)) :
    (execute_run_command os spawn cmdStr secret_envs).1 = [] ∨
      (execute_run_command os spawn cmdStr secret_envs).1 =
        [Event.spawnProc (if os = "windows" then "powershell" else "/bin/sh")
          cmdStr secret_envs] := by
  by_cases h : String.mk (trimChars cmdStr.data) = ""
  · exact Or.inl (by simp [execute_run_command, h])
  · right
    cases hs : spawn (if os = "windows" then "powershell" else "/bin/sh") cmdStr
        secret_envs with
    | ok st =>
      by_cases h2 : st.success <;> simp [execute_run_command, h, hs, h2]
    | error e => simp [execute_run_command, h, hs]

/-! ### Claim theorems: modes of operation -/

/-- C10: if any process argument equals `--test`, `main` prints `success` and
returns success immediately; the trace contains neither a parse, an
authentication or resolution attempt, a file write, nor a spawn. -/
theorem c10_test_flag (args : List String) (cfgResult : Except String Config)
    (inferUrls : Config → Except String (String × String))
    (auth : String → Except String Unit)
    (resolve : List Uuid → Except String (List SecretResponse))
    (os : String)
    (spawn : String → String → List (String × String) → Except String ExitStatus)
    (env : String → Option String) (openFails : String → Bool) (toks : Nat → String)
    (h : args.any (fun a => a == "--test") = true) :
    mainFn args cfgResult inferUrls auth resolve os spawn env openFails toks =
      ([Event.outLine "success"], Except.ok ()) := by
  simp [mainFn, h]

theorem c10_witness :
    ((["--test"] : List String).any (fun a => a == "--test") = true) ∧
      mainFn ["--test"] (Except.error "no config") (fun _ => Except.error "e")
        (fun _ => Except.error "e") (fun _ => Except.error "e") "linux"
        (fun _ _ _ => Except.error "e") (fun _ => none) (fun _ => false)
        (fun _ => "t") =
        ([Event.outLine "success"], Except.ok ()) :=
  ⟨by decide,
    c10_test_flag ["--test"] (Except.error "no config") (fun _ => Except.error "e")
      (fun _ => Except.error "e") (fun _ => Except.error "e") "linux"
      (fun _ _ _ => Except.error "e") (fun _ => none) (fun _ => false)
      (fun _ => "t") (by decide)⟩

/-- C7: the subprocess runner succeeds without spawning on a blank command;
otherwise it spawns the platform shell exactly once with the command as a
single argument, succeeds exactly when the child exits successfully, reports
a command failure carrying the exit status on a non-zero exit, and reports a
spawn failure carrying the cause when the process cannot start. -/
theorem c7_runner (os : String)
    (spawn : String → String → List (String × String) → Except String ExitStatus)
    (cmdStr : String) (secret_envs : List (String × String)) :
    (String.mk (trimChars cmdStr.data) = "" →
      execute_run_command os spawn cmdStr secret_envs = ([], Except.ok ())) ∧
    (String.mk (trimChars cmdStr.data) ≠ "" →
      (execute_run_command os spawn cmdStr secret_envs).1 =
        [Event.spawnProc (if os = "windows" then "powershell" else "/bin/sh")
          cmdStr secret_envs] ∧
      (∀ st, spawn (if os = "windows" then "powershell" else "/bin/sh") cmdStr
          secret_envs = Except.ok st →
        (st.success = true →
          (execute_run_command os spawn cmdStr secret_envs).2 = Except.ok ()) ∧
        (st.success = false →
          (execute_run_command os spawn cmdStr secret_envs).2 =
            Except.error ("Commands exited with non-zero status: " ++ st.render))) ∧
      (∀ e, spawn (if os = "windows" then "powershell" else "/bin/sh") cmdStr
          secret_envs = Except.error e →
        (execute_run_command os spawn cmdStr secret_envs).2 =
          Except.error ("Failed to execute commands: " ++ e))) := by
  constructor
  · intro h
    simp [execute_run_command, h]
  · intro h
    refine ⟨?_, ?_, ?_⟩
    · rcases exec_trace_cases os spawn cmdStr secret_envs with h2 | h2
      · exfalso
        simp [execute_run_command, h] at h2
        rcases hs : spawn (if os = "windows" then "powershell" else "/bin/sh")
            cmdStr secret_envs with e | st
        · simp [hs] at h2
        · by_cases h3 : st.success <;> simp [hs, h3] at h2
      · exact h2
    · intro st hs
      constructor
      · intro h2
        simp [execute_run_command, h, hs, h2]
      · intro h2
        simp [execute_run_command, h, hs, h2]
    · intro e hs
      simp [execute_run_command, h, hs]

theorem c7_witness :
    (String.mk (trimChars ("exit 1" : String).data) ≠ "") ∧
      (execute_run_command "linux"
        (fun _ _ _ => Except.ok ⟨false, "exit status: 1"⟩) "exit 1" []).2 =
        Except.error ("Commands exited with non-zero status: " ++ "exit status: 1") :=
  ⟨by decide,
    (((c7_runner "linux" (fun _ _ _ => Except.ok ⟨false, "exit status: 1"⟩)
        "exit 1" []).2 (by decide)).2.1 ⟨false, "exit status: 1"⟩ rfl).2 rfl⟩

/-- C8: the two output modes are mutually exclusive: with a run command
configured the dispatch writes no file frame and emits no masking directive;
with none configured it spawns no process. -/
theorem c8_mode_exclusive (run : Option String) (os : String)
    (spawn : String → String → List (String × String) → Except String ExitStatus)
    (env : String → Option String) (openFails : String → Bool) (toks : Nat → String)
    (secret_envs : List (String × String)) :
    (∀ c, run = some c →
      (∀ p cont, Event.fileAppend p cont ∉
        (runPhase run os spawn env openFails toks secret_envs).1) ∧
      (∀ v, Event.outLine (mask_value_line v) ∉
        (runPhase run os spawn env openFails toks secret_envs).1)) ∧
    (run = none →
      ∀ sh a es, Event.spawnProc sh a es ∉
        (runPhase run os spawn env openFails toks secret_envs).1) := by
  constructor
  · rintro c rfl
    have htr := exec_trace_cases os spawn c secret_envs
    constructor
    · intro p cont hmem
      simp only [runPhase] at hmem
      rcases htr with h | h <;> rw [h] at hmem <;> simp at hmem
    · intro v hmem
      simp only [runPhase] at hmem
      rcases htr with h | h <;> rw [h] at hmem <;> simp at hmem
  · rintro rfl sh a es
    simp only [runPhase]
    exact persistLoop_no_spawn env openFails toks secret_envs 0 sh a es

theorem c8_witness :
    Event.fileAppend "/dev/null" "X" ∉
      (runPhase (some "echo hi") "linux" (fun _ _ _ => Except.ok ⟨true, "exit status: 0"⟩)
        (fun _ => none) (fun _ => false) (fun _ => "t") [("N", "V")]).1 :=
  ((c8_mode_exclusive (some "echo hi") "linux"
      (fun _ _ _ => Except.ok ⟨true, "exit status: 0"⟩) (fun _ => none)
      (fun _ => false) (fun _ => "t") [("N", "V")]).1 "echo hi" rfl).1
    "/dev/null" "X"

/-! ### Claim theorems: secure persistence -/

/-- C1: in file-persistence mode every file write is the frame of one of the
projected entries, and the masking directive line `::add-mask::<value>` for
that entry's value appears on standard output strictly earlier in the trace
than the write (mask-then-write holds for every entry). -/
theorem c1_mask_before_write (env : String → Option String) (openFails : String → Bool)
    (toks : Nat → String) (entries : List (String × String)) (k j : Nat) (p c : String)
    (hj : (persistLoop env openFails toks entries k).1.get? j =
      some (Event.fileAppend p c)) :
    ∃ name value tokIdx,
      (name, value) ∈ entries ∧
      c = issue_file_command (toks tokIdx) name value ∧
      ∃ i, i < j ∧
        (persistLoop env openFails toks entries k).1.get? i =
          some (Event.outLine (mask_value_line value)) := by
  induction entries generalizing k j with
  | nil => simp [persistLoop] at hj
  | cons e rest ih =>
    obtain ⟨n, v⟩ := e
    by_cases h : openFails (envPath env) = true
    · rw [persistLoop_cons_fail env openFails toks n v rest k h] at hj
      rcases j with _ | _ | j <;> simp [List.get?] at hj
    · rw [persistLoop_cons_ok env openFails toks n v rest k (by simpa using h)] at hj ⊢
      rcases j with _ | _ | _ | j
      · simp [List.get?] at hj
      · simp [List.get?] at hj
      · simp only [List.get?, Option.some.injEq] at hj
        obtain ⟨hp, hc⟩ := (Event.fileAppend.injEq _ _ _ _).mp hj.symm
        exact ⟨n, v, k, by simp, hc, 1, by omega, by simp [List.get?]⟩
      · simp only [List.get?] at hj
        obtain ⟨name, value, t, hmem, hc, i, hi, hgi⟩ := ih (k + 1) j hj
        exact ⟨name, value, t, List.mem_cons_of_mem _ hmem, hc, i + 3, by omega,
          by simpa [List.get?] using hgi⟩

theorem c1_witness :
    ((persistLoop (fun _ => none) (fun _ => false) (fun _ => "t") [("N", "V")] 0).1.get? 2 =
      some (Event.fileAppend "/dev/null" (issue_file_command "t" "N" "V"))) ∧
    (∃ name value, ∃ _tokIdx : Nat,
      (name, value) ∈ [("N", "V")] ∧
      issue_file_command "t" "N" "V" = issue_file_command "t" name value ∧
      ∃ i, i < 2 ∧
        (persistLoop (fun _ => none) (fun _ => false) (fun _ => "t")
          [("N", "V")] 0).1.get? i = some (Event.outLine (mask_value_line value))) :=
  ⟨rfl,
    c1_mask_before_write (fun _ => none) (fun _ => false) (fun _ => "t") [("N", "V")]
      0 2 "/dev/null" (issue_file_command "t" "N" "V") rfl⟩

theorem writesOf_persistLoop (env : String → Option String) (toks : Nat → String)
    (entries : List (String × String)) (k : Nat) :
    writesOf (persistLoop env (fun _ => false) toks entries k).1 =
      framesFrom toks k entries := by
  induction entries generalizing k with
  | nil => simp [persistLoop, writesOf, framesFrom]
  | cons e rest ih =>
    obtain ⟨n, v⟩ := e
    rw [persistLoop_cons_ok env (fun _ => false) toks n v rest k rfl]
    simp only [writesOf, List.filterMap_cons, framesFrom]
    rw [← writesOf, ih (k + 1)]
    rfl

/-- C2: with no filesystem failure, the sequence of appends to the target
file is exactly one three-line frame `NAME<<TOKEN`, raw value verbatim,
`TOKEN` per projected entry, the entry at position `k` of the loop using
delimiter `ghadelimiter_<toks k>`; freshness of the UUID stream (injectivity)
makes every two entries' tokens distinct. -/
theorem c2_framing (env : String → Option String) (toks : Nat → String)
    (entries : List (String × String))
    (hinj : ∀ i j, toks i = toks j → i = j) :
    writesOf (persistLoop env (fun _ => false) toks entries 0).1 =
      framesFrom toks 0 entries ∧
    ∀ i j : Nat, i ≠ j →
      ("ghadelimiter_" ++ toks i) ≠ ("ghadelimiter_" ++ toks j) := by
  refine ⟨writesOf_persistLoop env toks entries 0, ?_⟩
  intro i j hne heq
  exact hne (hinj i j (string_append_left_cancel heq))

theorem c2_witness :
    writesOf (persistLoop (fun _ => none) (fun _ => false)
        (fun m => String.mk (List.replicate m 'a'))
        [("TEST_SECRET", "line1\nline2")] 0).1 =
      framesFrom (fun m => String.mk (List.replicate m 'a')) 0
        [("TEST_SECRET", "line1\nline2")] :=
  (c2_framing (fun _ => none) (fun m => String.mk (List.replicate m 'a'))
    [("TEST_SECRET", "line1\nline2")]
    (fun i j h => by simpa using congrArg (fun s => s.data.length) h)).1

/-- C9 counterexample: with `GITHUB_ENV` configured but pointing at an
unusable target, the open failure is fatal — persistence does not degrade to
a no-op sink, the run fails. -/
theorem c9_counterexample :
    (persistLoop (fun nm => if nm = "GITHUB_ENV" then some "/bad/path" else none)
        (fun p => p == "/bad/path") (fun _ => "t") [("N", "V")] 0).2 =
      Except.error "failed to open /bad/path" ∧
    (persistLoop (fun nm => if nm = "GITHUB_ENV" then some "/bad/path" else none)
        (fun p => p == "/bad/path") (fun _ => "t") [("N", "V")] 0).2 ≠
      Except.ok () := by
  refine ⟨rfl, fun h => ?_⟩
  have h2 : (Except.error "failed to open /bad/path" :
      Except String Unit) = Except.ok () := by
    rw [← h]
    rfl
  exact Except.noConfusion h2

/-- C9 (amended): when no target path is provided, `set_secrets` falls back
to `/dev/null` — a no-op sink whose open succeeds — so the whole persistence
loop succeeds for every projection and every write is directed there.  (An
unusable *configured* target, by contrast, is fatal.) -/
theorem c9_no_target_noop (env : String → Option String) (openFails : String → Bool)
    (toks : Nat → String) (entries : List (String × String)) (k : Nat)
    (henv : env "GITHUB_ENV" = none) (hdev : openFails "/dev/null" = false) :
    (persistLoop env openFails toks entries k).2 = Except.ok () ∧
    ∀ p c, Event.fileAppend p c ∈ (persistLoop env openFails toks entries k).1 →
      p = "/dev/null" := by
  have hpath : envPath env = "/dev/null" := by simp [envPath, get_env, henv]
  induction entries generalizing k with
  | nil => simp [persistLoop]
  | cons e rest ih =>
    obtain ⟨n, v⟩ := e
    rw [persistLoop_cons_ok env openFails toks n v rest k (by rw [hpath]; exact hdev)]
    constructor
    · exact (ih (k + 1)).1
    · intro p c hmem
      simp only [List.mem_cons] at hmem
      rcases hmem with h | h | h | h
      · exact absurd h (by simp)
      · exact absurd h (by simp)
      · obtain ⟨hp, _⟩ := (Event.fileAppend.injEq _ _ _ _).mp h
        rw [hp, hpath]
      · exact (ih (k + 1)).2 p c h

theorem c9_witness :
    (persistLoop (fun _ => none) (fun _ => false) (fun _ => "t")
      [("N", "V")] 0).2 = Except.ok () :=
  (c9_no_target_noop (fun _ => none) (fun _ => false) (fun _ => "t")
    [("N", "V")] 0 rfl rfl).1

/-! ### Claim theorems: identifier parsing -/

/-- C3: if any line's trimmed text before `>` fails to parse as a UUID, the
whole parse returns an error (so no partial map is ever produced) and the
error message names the offending identifier text (the first such line's). -/
theorem c3_atomic_failfast (lines : List String) (l : String)
    (hl : l ∈ lines) (hbad : Uuid.fromStr (uuidPartOf l) = none) :
    ∃ l', l' ∈ lines ∧ Uuid.fromStr (uuidPartOf l') = none ∧
      (parse_secret_input lines).1 =
        Except.error ("Invalid UUID format: " ++ uuidPartOf l') := by
  have haux : ∀ (ls : List String) (m : List (Uuid × String)) (ws : List String),
      (∃ x ∈ ls, Uuid.fromStr (uuidPartOf x) = none) →
      ∃ l', l' ∈ ls ∧ Uuid.fromStr (uuidPartOf l') = none ∧
        (parseSecretsAux ls m ws).1 =
          Except.error ("Invalid UUID format: " ++ uuidPartOf l') := by
    intro ls
    induction ls with
    | nil =>
      intro m ws h
      simp at h
    | cons l0 rest ih =>
      intro m ws h
      cases hu : Uuid.fromStr (uuidPartOf l0) with
      | none =>
        exact ⟨l0, List.mem_cons_self _ _, hu, by simp [parseSecretsAux, hu]⟩
      | some u =>
        have h2 : ∃ x ∈ rest, Uuid.fromStr (uuidPartOf x) = none := by
          rcases h with ⟨x, hx, hxbad⟩
          rcases List.mem_cons.mp hx with rfl | hx
          · rw [hu] at hxbad
            exact absurd hxbad (by simp)
          · exact ⟨x, hx, hxbad⟩
        rcases halins : alInsert m u (namePartOf l0) with ⟨old, m2⟩
        cases old with
        | none =>
          obtain ⟨l', hl', hbad', heq⟩ := ih m2 ws h2
          refine ⟨l', List.mem_cons_of_mem _ hl', hbad', ?_⟩
          rw [show parseSecretsAux (l0 :: rest) m ws = parseSecretsAux rest m2 ws from by
            simp [parseSecretsAux, hu, halins]]
          exact heq
        | some o =>
          obtain ⟨l', hl', hbad', heq⟩ :=
            ih m2 (ws ++ [dupWarning u o (namePartOf l0)]) h2
          refine ⟨l', List.mem_cons_of_mem _ hl', hbad', ?_⟩
          rw [show parseSecretsAux (l0 :: rest) m ws =
              parseSecretsAux rest m2 (ws ++ [dupWarning u o (namePartOf l0)]) from by
            simp [parseSecretsAux, hu, halins]]
          exact heq
  simpa [parse_secret_input] using haux lines [] [] ⟨l, hl, hbad⟩

theorem c3_witness :
    (("invalid-uuid > X" : String) ∈
      ["invalid-uuid > X", "91ba3f10-a9a2-4795-bacf-0eee2d39a074 > VALID"]) ∧
    Uuid.fromStr (uuidPartOf "invalid-uuid > X") = none ∧
    ∃ l', l' ∈ ["invalid-uuid > X", "91ba3f10-a9a2-4795-bacf-0eee2d39a074 > VALID"] ∧
      Uuid.fromStr (uuidPartOf l') = none ∧
      (parse_secret_input
        ["invalid-uuid > X", "91ba3f10-a9a2-4795-bacf-0eee2d39a074 > VALID"]).1 =
        Except.error ("Invalid UUID format: " ++ uuidPartOf l') :=
  ⟨by simp, rfl,
    c3_atomic_failfast ["invalid-uuid > X",
      "91ba3f10-a9a2-4795-bacf-0eee2d39a074 > VALID"] "invalid-uuid > X"
      (by simp) rfl⟩

theorem splitChar_eq_of_not_mem {sep : Char} {as : List Char} (h : sep ∉ as) :
    splitChar sep as = [as] := by
  induction as with
  | nil => rfl
  | cons a as ih =>
    have ha : ¬ a = sep := fun hh => h (by simp [hh])
    have h2 : sep ∉ as := fun hh => h (List.mem_cons_of_mem _ hh)
    simp [splitChar, ha, ih h2]

theorem splitChar_append {sep : Char} {as : List Char} (bs : List Char) (h : sep ∉ as) :
    splitChar sep (as ++ sep :: bs) = as :: splitChar sep bs := by
  induction as with
  | nil => simp [splitChar]
  | cons a as ih =>
    have ha : ¬ a = sep := fun hh => h (by simp [hh])
    have h2 : sep ∉ as := fun hh => h (List.mem_cons_of_mem _ hh)
    simp [splitChar, ha, ih h2]

/-- C4 counterexample: for the line `...074 > A>B` the parser keeps only `A`
as the desired name — the text after the *second* `>` is discarded, not kept
in full as the claim states. -/
theorem c4_counterexample :
    (parse_secret_input ["91ba3f10-a9a2-4795-bacf-0eee2d39a074 > A>B"]).1 =
      Except.ok [(Uuid.mk 0x91ba3f10a9a24795bacf0eee2d39a074, "A")] ∧
    namePartOf "91ba3f10-a9a2-4795-bacf-0eee2d39a074 > A>B" = "A" ∧
    ("A" : String) ≠ "A>B" := by
  refine ⟨rfl, rfl, ?_⟩
  decide

/-- C4 (amended): each line splits on `>`: the text before the first `>`
(trimmed) is the UUID text; the desired name is the text strictly between the
first and the second `>` (trimmed), the empty string when the line has no
`>`; any text after a second `>` is discarded. -/
theorem c4_split_semantics (a b c : List Char) (ha : '>' ∉ a) (hb : '>' ∉ b) :
    (uuidPartOf (String.mk (a ++ '>' :: b)) = String.mk (trimChars a) ∧
      namePartOf (String.mk (a ++ '>' :: b)) = String.mk (trimChars b)) ∧
    (uuidPartOf (String.mk a) = String.mk (trimChars a) ∧
      namePartOf (String.mk a) = "") ∧
    (uuidPartOf (String.mk (a ++ '>' :: (b ++ '>' :: c))) = String.mk (trimChars a) ∧
      namePartOf (String.mk (a ++ '>' :: (b ++ '>' :: c))) = String.mk (trimChars b)) := by
  have hsplit1 : splitChar '>' (a ++ '>' :: b) = a :: splitChar '>' b :=
    splitChar_append b ha
  have hsplitb : splitChar '>' b = [b] := splitChar_eq_of_not_mem hb
  have hsplita : splitChar '>' a = [a] := splitChar_eq_of_not_mem ha
  have hsplit2 : splitChar '>' (a ++ '>' :: (b ++ '>' :: c)) =
      a :: b :: splitChar '>' c := by
    rw [splitChar_append _ ha, splitChar_append _ hb]
  refine ⟨⟨?_, ?_⟩, ⟨?_, ?_⟩, ⟨?_, ?_⟩⟩ <;>
    simp [uuidPartOf, namePartOf, hsplit1, hsplitb, hsplita, hsplit2, List.get?, trimChars]

theorem c4_witness :
    ('>' ∉ ['u', ' ']) ∧ ('>' ∉ [' ', 'N']) ∧
      namePartOf (String.mk (['u', ' '] ++ '>' :: ([' ', 'N'] ++ '>' :: ['Z']))) =
        String.mk (trimChars [' ', 'N']) :=
  ⟨by decide, by decide,
    ((c4_split_semantics ['u', ' '] [' ', 'N'] ['Z'] (by decide) (by decide)).2.2).2⟩

theorem insertAll_cons (m : List (Uuid × String)) (u : Uuid) (n : String)
    (ps : List (Uuid × String)) :
    insertAll m ((u, n) :: ps) = insertAll (alInsert m u n).2 ps := rfl

theorem insertAll_append_singleton (m ps : List (Uuid × String)) (u : Uuid)
    (n : String) :
    insertAll m (ps ++ [(u, n)]) = (alInsert (insertAll m ps) u n).2 := by
  simp [insertAll, List.foldl_append]

theorem alLookup_insertAll (ps : List (Uuid × String)) :
    ∀ (m : List (Uuid × String)) (u : Uuid),
      alLookup (insertAll m ps) u =
        match lastNameFor u ps with
        | some r => some r
        | none => alLookup m u := by
  induction ps with
  | nil =>
    intro m u
    simp [insertAll, lastNameFor]
  | cons p ps ih =>
    intro m u
    obtain ⟨k, n⟩ := p
    rw [insertAll_cons, ih]
    cases h : lastNameFor u ps with
    | some r => simp [lastNameFor, h]
    | none =>
      by_cases h2 : k = u <;>
        simp [lastNameFor, h, alLookup_alInsert, h2]

theorem nodup_keys_insertAll (ps : List (Uuid × String)) :
    ∀ m : List (Uuid × String), (m.map Prod.fst).Nodup →
      ((insertAll m ps).map Prod.fst).Nodup := by
  induction ps with
  | nil =>
    intro m h
    exact h
  | cons p ps ih =>
    obtain ⟨k, n⟩ := p
    intro m h
    rw [insertAll_cons]
    exact ih _ (nodup_keys_alInsert k n h)

theorem parseSecretsAux_ok (lines : List String) :
    ∀ (m : List (Uuid × String)) (ws : List String) (m' : List (Uuid × String))
      (ws' : List String),
      parseSecretsAux lines m ws = (Except.ok m', ws') →
      m' = insertAll m (linePairs lines) ∧
        ws' = ws ++ dupWarningsFrom m (linePairs lines) := by
  induction lines with
  | nil =>
    intro m ws m' ws' h
    simp [parseSecretsAux] at h
    simp [linePairs, insertAll, dupWarningsFrom, h.1.symm, h.2.symm]
  | cons l rest ih =>
    intro m ws m' ws' h
    cases hu : Uuid.fromStr (uuidPartOf l) with
    | none =>
      rw [show parseSecretsAux (l :: rest) m ws =
          (Except.error ("Invalid UUID format: " ++ uuidPartOf l), ws) from by
        simp [parseSecretsAux, hu]] at h
      exact absurd (congrArg Prod.fst h) (by simp)
    | some u =>
      have hpairs : linePairs (l :: rest) = (u, namePartOf l) :: linePairs rest := by
        simp [linePairs, hu]
      have hold : (alInsert m u (namePartOf l)).1 = alLookup m u := alInsert_fst m u _
      rcases halins : alInsert m u (namePartOf l) with ⟨old, m2⟩
      rw [halins] at hold
      have hm2 : (alInsert m u (namePartOf l)).2 = m2 := by rw [halins]
      cases old with
      | none =>
        rw [show parseSecretsAux (l :: rest) m ws = parseSecretsAux rest m2 ws from by
          simp [parseSecretsAux, hu, halins]] at h
        obtain ⟨h1, h2⟩ := ih m2 ws m' ws' h
        refine ⟨?_, ?_⟩
        · rw [hpairs, insertAll_cons, hm2, h1]
        · rw [hpairs, h2]
          simp [dupWarningsFrom, hold.symm, hm2]
      | some o =>
        rw [show parseSecretsAux (l :: rest) m ws =
            parseSecretsAux rest m2 (ws ++ [dupWarning u o (namePartOf l)]) from by
          simp [parseSecretsAux, hu, halins]] at h
        obtain ⟨h1, h2⟩ := ih m2 (ws ++ [dupWarning u o (namePartOf l)]) m' ws' h
        refine ⟨?_, ?_⟩
        · rw [hpairs, insertAll_cons, hm2, h1]
        · rw [hpairs, h2]
          simp [dupWarningsFrom, hold.symm, hm2]

theorem dupWarningsFrom_insertAll (rest : List (Uuid × String)) :
    ∀ seen : List (Uuid × String),
      dupWarningsFrom (insertAll [] seen) rest = dupWarningsSpec seen rest := by
  induction rest with
  | nil =>
    intro seen
    rfl
  | cons p rest ih =>
    obtain ⟨u, n⟩ := p
    intro seen
    have hlook : alLookup (insertAll [] seen) u = lastNameFor u seen := by
      rw [alLookup_insertAll]
      cases lastNameFor u seen <;> simp [alLookup]
    have hins : (alInsert (insertAll [] seen) u n).2 = insertAll [] (seen ++ [(u, n)]) :=
      (insertAll_append_singleton [] seen u n).symm
    simp only [dupWarningsFrom, dupWarningsSpec, hlook, hins, ih]

/-- C5: on success the parsed map has no duplicate identifiers (one entry per
distinct UUID), maps every identifier to the name of its last occurrence in
the input, and the emitted warnings are exactly one per duplicate occurrence,
each naming the identifier, the previously mapped name and the new name. -/
theorem c5_last_write_wins (lines : List String) (m : List (Uuid × String))
    (ws : List String) (h : parse_secret_input lines = (Except.ok m, ws)) :
    (m.map Prod.fst).Nodup ∧
    (∀ u, alLookup m u = lastNameFor u (linePairs lines)) ∧
    ws = dupWarningsSpec [] (linePairs lines) := by
  obtain ⟨h1, h2⟩ := parseSecretsAux_ok lines [] [] m ws h
  refine ⟨?_, ?_, ?_⟩
  · rw [h1]
    exact nodup_keys_insertAll (linePairs lines) [] (by simp)
  · intro u
    rw [h1, alLookup_insertAll]
    cases lastNameFor u (linePairs lines) <;> simp [alLookup]
  · rw [h2]
    have hbridge := dupWarningsFrom_insertAll (linePairs lines) []
    simpa [insertAll] using hbridge

theorem c5_witness :
    (parse_secret_input ["91ba3f10-a9a2-4795-bacf-0eee2d39a074 > ONE",
        "91ba3f10-a9a2-4795-bacf-0eee2d39a074 > TWO"] =
      (Except.ok [(Uuid.mk 0x91ba3f10a9a24795bacf0eee2d39a074, "TWO")],
        [dupWarning (Uuid.mk 0x91ba3f10a9a24795bacf0eee2d39a074) "ONE" "TWO"])) ∧
    ((([(Uuid.mk 0x91ba3f10a9a24795bacf0eee2d39a074, "TWO")] :
      List (Uuid × String)).map Prod.fst).Nodup) :=
  ⟨rfl,
    (c5_last_write_wins ["91ba3f10-a9a2-4795-bacf-0eee2d39a074 > ONE",
      "91ba3f10-a9a2-4795-bacf-0eee2d39a074 > TWO"]
      [(Uuid.mk 0x91ba3f10a9a24795bacf0eee2d39a074, "TWO")]
      [dupWarning (Uuid.mk 0x91ba3f10a9a24795bacf0eee2d39a074) "ONE" "TWO"] rfl).1⟩

/-! ### Claim theorems: projection -/

theorem alLookup_isSome_iff {α β : Type} [DecidableEq α] (m : List (α × β)) (a : α) :
    (alLookup m a).isSome = true ↔ a ∈ m.map Prod.fst := by
  induction m with
  | nil => simp [alLookup]
  | cons p rest ih =>
    obtain ⟨k, v⟩ := p
    by_cases h : k = a
    · subst h
      simp [alLookup]
    · simp [alLookup, h, ih, show ¬ a = k from fun hh => h hh.symm]

theorem mem_keys_alInsert_of {α β : Type} [DecidableEq α] (m : List (α × β)) (k a : α)
    (v : β) (h : a = k ∨ a ∈ m.map Prod.fst) :
    a ∈ (alInsert m k v).2.map Prod.fst := by
  rw [← alLookup_isSome_iff, alLookup_alInsert]
  by_cases h2 : k = a
  · simp [h2]
  · have h3 : a ∈ m.map Prod.fst := by
      rcases h with h | h
      · exact absurd h.symm h2
      · exact h
    simp [h2, Option.isSome_iff_exists]
    rcases Option.isSome_iff_exists.mp ((alLookup_isSome_iff m a).mpr h3) with ⟨b, hb⟩
    exact ⟨b, hb⟩

theorem mem_foldl_alInsert (ps : List (String × String)) :
    ∀ (m : List (String × String)) (p : String × String),
      p ∈ ps.foldl (fun acc q => (alInsert acc q.1 q.2).2) m → p ∈ m ∨ p ∈ ps := by
  induction ps with
  | nil =>
    intro m p h
    exact Or.inl h
  | cons q ps ih =>
    intro m p h
    rcases ih _ p h with h2 | h2
    · rcases mem_alInsert h2 with h3 | h3
      · exact Or.inr (by rw [h3]; simp)
      · exact Or.inl h3
    · exact Or.inr (List.mem_cons_of_mem _ h2)

theorem key_mem_foldl_alInsert (ps : List (String × String)) :
    ∀ (m : List (String × String)) (a : String),
      (a ∈ m.map Prod.fst ∨ a ∈ ps.map Prod.fst) →
      a ∈ (ps.foldl (fun acc q => (alInsert acc q.1 q.2).2) m).map Prod.fst := by
  induction ps with
  | nil =>
    intro m a h
    rcases h with h | h
    · exact h
    · simp at h
  | cons q ps ih =>
    intro m a h
    apply ih
    rcases h with h | h
    · exact Or.inl (mem_keys_alInsert_of m q.1 a q.2 (Or.inr h))
    · rw [List.map_cons] at h
      rcases List.mem_cons.mp h with h2 | h2
      · exact Or.inl (mem_keys_alInsert_of m q.1 a q.2 (Or.inl h2))
      · exact Or.inr h2

/-- C6: the projection keeps, for every vault record whose identifier is in
the map, the mapped name as a key of the result; every result entry's value
stems from such a record (so a record with an unmapped identifier is dropped
silently, and every result key is one of the map's names); the projection is
a total function, so it never fails. -/
theorem c6_projection (secrets_data : List SecretResponse)
    (m : List (Uuid × String)) :
    (∀ s ∈ secrets_data, ∀ n, alLookup m s.id = some n →
      n ∈ (prepare_secret_env_vars secrets_data m).map Prod.fst) ∧
    (∀ p ∈ prepare_secret_env_vars secrets_data m,
      ∃ s ∈ secrets_data, alLookup m s.id = some p.1 ∧ p.2 = s.value) ∧
    (∀ p ∈ prepare_secret_env_vars secrets_data m, p.1 ∈ m.map Prod.snd) := by
  have hmain2 : ∀ p ∈ prepare_secret_env_vars secrets_data m,
      ∃ s ∈ secrets_data, alLookup m s.id = some p.1 ∧ p.2 = s.value := by
    intro p hp
    have hp2 : p ∈ secrets_data.filterMap (fun secret =>
        (alLookup m secret.id).map fun name => (name, secret.value)) := by
      rcases mem_foldl_alInsert _ [] p
          (by simpa [prepare_secret_env_vars, hmCollect] using hp) with h | h
      · simp at h
      · exact h
    rcases List.mem_filterMap.mp hp2 with ⟨s, hs, hmap⟩
    rcases Option.map_eq_some'.mp hmap with ⟨n, hn, hpn⟩
    refine ⟨s, hs, ?_, ?_⟩
    · rw [hn, ← hpn]
    · rw [← hpn]
  refine ⟨?_, hmain2, ?_⟩
  · intro s hs n hn
    have hmem : (n, s.value) ∈ secrets_data.filterMap (fun secret =>
        (alLookup m secret.id).map fun name => (name, secret.value)) :=
      List.mem_filterMap.mpr ⟨s, hs, by rw [hn]; rfl⟩
    have hkey : n ∈ (secrets_data.filterMap (fun secret =>
        (alLookup m secret.id).map fun name => (name, secret.value))).map Prod.fst :=
      List.mem_map.mpr ⟨(n, s.value), hmem, rfl⟩
    simpa [prepare_secret_env_vars, hmCollect] using
      key_mem_foldl_alInsert _ [] n (Or.inr hkey)
  · intro p hp
    rcases hmain2 p hp with ⟨s, _, hlook, _⟩
    exact alLookup_mem_values hlook

theorem c6_witness :
    ("NAME_A" : String) ∈ (prepare_secret_env_vars
      [⟨Uuid.mk 1, "v1"⟩, ⟨Uuid.mk 2, "v2"⟩]
      [(Uuid.mk 1, "NAME_A")]).map Prod.fst :=
  (c6_projection [⟨Uuid.mk 1, "v1"⟩, ⟨Uuid.mk 2, "v2"⟩]
    [(Uuid.mk 1, "NAME_A")]).1 ⟨Uuid.mk 1, "v1"⟩ (by simp) "NAME_A" rfl

end SmAction

